import Mathlib

/-!
Verification development for the go-lib-mcp repository: a shallow embedding
of the MCP server engine (protocol types, jsonrpc envelopes, the dispatch
handler, the stdio line-framing transport, the tool registry, and the
text-output limiting utility), together with theorems settling the frozen
claims about the specification.

Conventions of the embedding:
- Go byte strings are modelled as `List Nat` (one entry per byte).
- Go `json.RawMessage` payloads are opaque byte lists; the external
  `encoding/json` decoding steps are abstracted as decoder functions
  passed in a `Decoders` record.
- Fallible Go calls returning `(T, error)` are modelled as `Except String T`.
- A nil-pointer dereference (Go runtime panic) is modelled explicitly as a
  `.fault` outcome.
-/

namespace Mcp

/-- Byte strings: one `Nat` per byte. -/
abbrev Bytes := List Nat

/-! ## protocol package (src/protocol) -/

/-- protocol.ProtocolVersion (src/protocol/prompts.go). -/
def ProtocolVersion : String := "2024-11-05"

/-- protocol.ContentBlock (src/protocol/prompts.go). -/
structure ContentBlock where
  type : String
  text : String
  mimeType : String := ""
  data : String := ""
deriving DecidableEq, Repr

/-- protocol.TextContent (src/protocol/prompts.go). -/
def TextContent (text : String) : ContentBlock :=
  { type := "text", text := text }

/-- protocol.Tool (src/protocol/tools.go). `InputSchema` is raw JSON bytes. -/
structure Tool where
  name : String
  description : String := ""
  inputSchema : Bytes := []
deriving DecidableEq

/-- protocol.ToolCallParams (src/protocol/tools.go). -/
structure ToolCallParams where
  name : String
  arguments : Bytes := []
deriving DecidableEq

/-- protocol.ToolCallResult (src/protocol/tools.go). -/
structure ToolCallResult where
  content : List ContentBlock
  isError : Bool := false
deriving DecidableEq, Repr

/-- protocol.ErrorResult (src/protocol/tools.go): a ToolCallResult
representing an application-level error. -/
def ErrorResult (msg : String) : ToolCallResult :=
  { content := [TextContent msg], isError := true }

/-- protocol.Resource (src/protocol/resources.go). -/
structure Resource where
  uri : String
  name : String
  description : String := ""
  mimeType : String := ""
deriving DecidableEq

/-- protocol.ResourceReadParams (src/protocol/resources.go). -/
structure ResourceReadParams where
  uri : String
deriving DecidableEq

/-- protocol.ResourceContent (src/protocol/resources.go). -/
structure ResourceContent where
  uri : String
  mimeType : String := ""
  text : String := ""
  blob : String := ""
deriving DecidableEq

/-- protocol.ResourceReadResult (src/protocol/resources.go). -/
structure ResourceReadResult where
  contents : List ResourceContent
deriving DecidableEq

/-- protocol.ResourceTemplate (src/protocol/resources.go). -/
structure ResourceTemplate where
  uriTemplate : String
  name : String
  description : String := ""
  mimeType : String := ""
deriving DecidableEq

/-- protocol.PromptArgument (src/protocol/prompts.go). -/
structure PromptArgument where
  name : String
  description : String := ""
  required : Bool := false
deriving DecidableEq

/-- protocol.Prompt (src/protocol/prompts.go). -/
structure Prompt where
  name : String
  description : String := ""
  arguments : List PromptArgument := []
deriving DecidableEq

/-- protocol.PromptMessage (src/protocol/prompts.go). -/
structure PromptMessage where
  role : String
  content : ContentBlock
deriving DecidableEq

/-- protocol.PromptGetParams (src/protocol/prompts.go); the `Arguments`
map is modelled as an association list. -/
structure PromptGetParams where
  name : String
  arguments : List (String × String) := []

/-- protocol.PromptGetResult (src/protocol/prompts.go). -/
structure PromptGetResult where
  description : String := ""
  messages : List PromptMessage
deriving DecidableEq

/-- protocol.Implementation (src/protocol/prompts.go). -/
structure Implementation where
  name : String
  version : String := ""
deriving DecidableEq

/-- protocol.RootsCapability (src/protocol/initialize.go). -/
structure RootsCapability where
  listChanged : Bool := false
deriving DecidableEq

/-- protocol.ClientCapabilities (src/protocol/initialize.go);
SamplingCapability is an empty struct, modelled as `Unit`. -/
structure ClientCapabilities where
  roots : Option RootsCapability := none
  sampling : Option Unit := none

/-- protocol.ToolsCapability (src/protocol/initialize.go). -/
structure ToolsCapability where
  listChanged : Bool := false
deriving DecidableEq

/-- protocol.ResourcesCapability (src/protocol/initialize.go). -/
structure ResourcesCapability where
  subscribe : Bool := false
  listChanged : Bool := false
deriving DecidableEq

/-- protocol.PromptsCapability (src/protocol/initialize.go). -/
structure PromptsCapability where
  listChanged : Bool := false
deriving DecidableEq

/-- protocol.ServerCapabilities (src/protocol/initialize.go). -/
structure ServerCapabilities where
  tools : Option ToolsCapability := none
  resources : Option ResourcesCapability := none
  prompts : Option PromptsCapability := none
deriving DecidableEq

/-- protocol.InitializeParams (src/protocol/initialize.go). -/
structure InitializeParams where
  protocolVersion : String
  capabilities : ClientCapabilities
  clientInfo : Implementation

/-- protocol.InitializeResult (src/protocol/initialize.go). -/
structure InitializeResult where
  protocolVersion : String
  capabilities : ServerCapabilities
  serverInfo : Implementation
deriving DecidableEq

/-! ## jsonrpc package

The jsonrpc package itself is not among the provided sources; only its
callers are. Its envelope type and constructors are modelled from the
spec (sections 3, 4.1 and 6: the wire envelope, the request /
notification / response classification, and the standard error codes). -/

/-- Modelled from the spec: the standard JSON-RPC error codes named in
section 3 (jsonrpc package constants; the jsonrpc source is not in src/). -/
def ParseErrorCode : Int := -32700

/-- Modelled from the spec: InvalidRequest standard code. -/
def InvalidRequestCode : Int := -32600

/-- Modelled from the spec: MethodNotFound standard code. -/
def MethodNotFound : Int := -32601

/-- Modelled from the spec: InvalidParams standard code. -/
def InvalidParams : Int := -32602

/-- Modelled from the spec: InternalError standard code. -/
def InternalError : Int := -32603

/-- Modelled from the spec: ErrorObject `{code, message, data}` (section 3);
`data` is "reserved ... and is otherwise unset", modelled as Option. -/
structure ErrorObject where
  code : Int
  message : String
  data : Option Bytes := none
deriving DecidableEq

/-- The typed result payloads a response envelope of this server can carry
(the Go code marshals these result structs into the envelope's opaque
`result` field). -/
inductive ResultPayload where
  | initializeR (r : InitializeResult)
  | pingR
  | toolsListR (tools : List Tool)
  | toolCallR (r : ToolCallResult)
  | resourcesListR (resources : List Resource)
  | resourceReadR (r : ResourceReadResult)
  | resourceTemplatesR (templates : List ResourceTemplate)
  | promptsListR (prompts : List Prompt)
  | promptGetR (r : PromptGetResult)
deriving DecidableEq

/-- Modelled from the spec: jsonrpc.Message, the wire envelope (section 3):
constant protocol tag, optional opaque id (only equality is used; modelled
as Nat), optional method (absent modelled as ""), opaque params bytes, and
mutually optional result / error. -/
structure Message where
  jsonrpc : String := "2.0"
  id : Option Nat := none
  method : String := ""
  params : Bytes := []
  result : Option ResultPayload := none
  error : Option ErrorObject := none
deriving DecidableEq

/-- Modelled from the spec: a message is a request when `id` and `method`
are both present (section 4.1 classification). -/
def Message.IsRequest (m : Message) : Bool :=
  m.id.isSome && m.method != ""

/-- Modelled from the spec: jsonrpc.NewResponse builds a success response
envelope carrying the given id and result. -/
def NewResponse (id : Nat) (result : ResultPayload) : Message :=
  { id := some id, result := some result }

/-- Modelled from the spec: jsonrpc.NewErrorResponse builds an error
response envelope carrying the given id and error object (`data` is nil at
every call site in src/). -/
def NewErrorResponse (id : Nat) (code : Int) (message : String) : Message :=
  { id := some id, error := some { code := code, message := message } }

/-! ## server package: providers and Options (src/unnamed/part_000, part_001)

Provider interfaces take a `context.Context` and are implemented outside
the engine; they are modelled as pure functions returning
`Except String T` for `(T, error)`. -/

/-- server.ToolProvider (src/unnamed/part_001). -/
structure ToolProvider where
  listTools : Except String (List Tool)
  callTool : String → Bytes → Except String ToolCallResult

/-- server.ResourceProvider (src/unnamed/part_001). -/
structure ResourceProvider where
  listResources : Except String (List Resource)
  readResource : String → Except String ResourceReadResult
  listResourceTemplates : Except String (List ResourceTemplate)

/-- server.PromptProvider (src/unnamed/part_001). -/
structure PromptProvider where
  listPrompts : Except String (List Prompt)
  getPrompt : String → List (String × String) → Except String PromptGetResult

/-- server.Options (src/unnamed/part_000): providers are optional;
nil is modelled as `none`. -/
structure Options where
  serverName : String
  serverVersion : String := ""
  tools : Option ToolProvider := none
  resources : Option ResourceProvider := none
  prompts : Option PromptProvider := none

/-- The `encoding/json` param-decoding steps (external to this repository)
abstracted as decoder functions: `json.Unmarshal(msg.Params, &params)`
for each params type is `decoder msg.params`, `none` meaning a decode
error. -/
structure Decoders where
  initializeDec : Bytes → Option InitializeParams
  toolCallDec : Bytes → Option ToolCallParams
  resourceReadDec : Bytes → Option ResourceReadParams
  promptGetDec : Bytes → Option PromptGetParams

/-! ## server package: Handler (src/server/server.go) -/

/-- Outcome of `Handler.Handle`: either a Go runtime fault (the handlers
dereference `*msg.ID`, which panics when the message carries no id), or a
normal return carrying the optional response and the handler's
`initialized` flag after the call. The Go error return is always nil in
src/ (response constructors are the only error sources and are modelled
total), so it does not appear. -/
inductive HandleOut where
  | fault
  | done (resp : Option Message) (initialized : Bool)
deriving DecidableEq

/-- Handler.handleInitialize (src/server/server.go:157-186). Every branch
dereferences `*msg.ID`, so a missing id is a fault. On decode success the
handler sets `initialized` and computes capabilities from the wired
providers. -/
def handleInitialize (d : Decoders) (opts : Options) (ini : Bool)
    (msg : Message) : HandleOut :=
  match msg.id with
  | none => .fault
  | some i =>
    match d.initializeDec msg.params with
    | none => .done (some (NewErrorResponse i InvalidParams "invalid params")) ini
    | some _ =>
      let capabilities : ServerCapabilities :=
        { tools := if opts.tools.isSome then some {} else none
          resources := if opts.resources.isSome then some {} else none
          prompts := if opts.prompts.isSome then some {} else none }
      let result : InitializeResult :=
        { protocolVersion := ProtocolVersion
          capabilities := capabilities
          serverInfo := { name := opts.serverName, version := opts.serverVersion } }
      .done (some (NewResponse i (.initializeR result))) true

/-- Handler.handlePing (src/server/server.go:188-190); PingResult is an
empty struct. -/
def handlePing (ini : Bool) (msg : Message) : HandleOut :=
  match msg.id with
  | none => .fault
  | some i => .done (some (NewResponse i .pingR)) ini

/-- Handler.handleToolsList (src/server/server.go:192-204). -/
def handleToolsList (opts : Options) (ini : Bool) (msg : Message) : HandleOut :=
  match msg.id with
  | none => .fault
  | some i =>
    match opts.tools with
    | none => .done (some (NewErrorResponse i InternalError "tools not supported")) ini
    | some tp =>
      match tp.listTools with
      | .error e => .done (some (NewErrorResponse i InternalError e)) ini
      | .ok tools => .done (some (NewResponse i (.toolsListR tools))) ini

/-- Handler.handleToolsCall (src/server/server.go:206-222). -/
def handleToolsCall (d : Decoders) (opts : Options) (ini : Bool)
    (msg : Message) : HandleOut :=
  match msg.id with
  | none => .fault
  | some i =>
    match opts.tools with
    | none => .done (some (NewErrorResponse i InternalError "tools not supported")) ini
    | some tp =>
      match d.toolCallDec msg.params with
      | none => .done (some (NewErrorResponse i InvalidParams "invalid params")) ini
      | some params =>
        match tp.callTool params.name params.arguments with
        | .error e => .done (some (NewErrorResponse i InternalError e)) ini
        | .ok result => .done (some (NewResponse i (.toolCallR result))) ini

/-- Handler.handleResourcesList (src/server/server.go:224-236). -/
def handleResourcesList (opts : Options) (ini : Bool) (msg : Message) : HandleOut :=
  match msg.id with
  | none => .fault
  | some i =>
    match opts.resources with
    | none => .done (some (NewErrorResponse i InternalError "resources not supported")) ini
    | some rp =>
      match rp.listResources with
      | .error e => .done (some (NewErrorResponse i InternalError e)) ini
      | .ok resources => .done (some (NewResponse i (.resourcesListR resources))) ini

/-- Handler.handleResourcesRead (src/server/server.go:238-254). -/
def handleResourcesRead (d : Decoders) (opts : Options) (ini : Bool)
    (msg : Message) : HandleOut :=
  match msg.id with
  | none => .fault
  | some i =>
    match opts.resources with
    | none => .done (some (NewErrorResponse i InternalError "resources not supported")) ini
    | some rp =>
      match d.resourceReadDec msg.params with
      | none => .done (some (NewErrorResponse i InvalidParams "invalid params")) ini
      | some params =>
        match rp.readResource params.uri with
        | .error e => .done (some (NewErrorResponse i InternalError e)) ini
        | .ok result => .done (some (NewResponse i (.resourceReadR result))) ini

/-- Handler.handleResourcesTemplates (src/server/server.go:256-268). -/
def handleResourcesTemplates (opts : Options) (ini : Bool) (msg : Message) : HandleOut :=
  match msg.id with
  | none => .fault
  | some i =>
    match opts.resources with
    | none => .done (some (NewErrorResponse i InternalError "resources not supported")) ini
    | some rp =>
      match rp.listResourceTemplates with
      | .error e => .done (some (NewErrorResponse i InternalError e)) ini
      | .ok templates => .done (some (NewResponse i (.resourceTemplatesR templates))) ini

/-- Handler.handlePromptsList (src/server/server.go:270-282). -/
def handlePromptsList (opts : Options) (ini : Bool) (msg : Message) : HandleOut :=
  match msg.id with
  | none => .fault
  | some i =>
    match opts.prompts with
    | none => .done (some (NewErrorResponse i InternalError "prompts not supported")) ini
    | some pp =>
      match pp.listPrompts with
      | .error e => .done (some (NewErrorResponse i InternalError e)) ini
      | .ok prompts => .done (some (NewResponse i (.promptsListR prompts))) ini

/-- Handler.handlePromptsGet (src/server/server.go:284-300). -/
def handlePromptsGet (d : Decoders) (opts : Options) (ini : Bool)
    (msg : Message) : HandleOut :=
  match msg.id with
  | none => .fault
  | some i =>
    match opts.prompts with
    | none => .done (some (NewErrorResponse i InternalError "prompts not supported")) ini
    | some pp =>
      match d.promptGetDec msg.params with
      | none => .done (some (NewErrorResponse i InvalidParams "invalid params")) ini
      | some params =>
        match pp.getPrompt params.name params.arguments with
        | .error e => .done (some (NewErrorResponse i InternalError e)) ini
        | .ok result => .done (some (NewResponse i (.promptGetR result))) ini

/-- Handler.Handle (src/server/server.go:126-155): the method switch,
written as the sequential string comparisons a Go switch performs. The
string literals are the protocol.Method* constants
(src/protocol/prompts.go:67-95). -/
def Handle (d : Decoders) (opts : Options) (ini : Bool) (msg : Message) : HandleOut :=
  if msg.method = "initialize" then handleInitialize d opts ini msg
  else if msg.method = "notifications/initialized" then .done none ini
  else if msg.method = "ping" then handlePing ini msg
  else if msg.method = "tools/list" then handleToolsList opts ini msg
  else if msg.method = "tools/call" then handleToolsCall d opts ini msg
  else if msg.method = "resources/list" then handleResourcesList opts ini msg
  else if msg.method = "resources/read" then handleResourcesRead d opts ini msg
  else if msg.method = "resources/templates/list" then handleResourcesTemplates opts ini msg
  else if msg.method = "prompts/list" then handlePromptsList opts ini msg
  else if msg.method = "prompts/get" then handlePromptsGet d opts ini msg
  else if msg.IsRequest then
    match msg.id with
    | some i =>
      .done (some (NewErrorResponse i MethodNotFound
        ("method not found: " ++ msg.method))) ini
    | none => .fault
  else
    .done none ini

/-! ## server package: ToolRegistry (src/server/registry.go) -/

/-- server.ToolHandler (src/server/registry.go:19). -/
def ToolHandler := Bytes → Except String ToolCallResult

/-- server.ToolRegistry (src/server/registry.go:13-16). The Go handler map
is modelled as an association list looked up front-to-back; `Register`
conses, so the front entry is the latest registration, matching Go map
overwrite semantics for lookup. -/
structure ToolRegistry where
  tools : List Tool := []
  handlers : List (String × ToolHandler) := []

/-- ToolRegistry.Register (src/server/registry.go:29-36). -/
def ToolRegistry.Register (r : ToolRegistry) (name description : String)
    (schema : Bytes) (handler : ToolHandler) : ToolRegistry :=
  { tools := r.tools ++ [{ name := name, description := description, inputSchema := schema }]
    handlers := (name, handler) :: r.handlers }

/-- ToolRegistry.CallTool (src/server/registry.go:44-50): an unknown tool
name resolves to `ErrorResult`, not a Go error. -/
def ToolRegistry.CallTool (r : ToolRegistry) (name : String) (args : Bytes) :
    Except String ToolCallResult :=
  match (r.handlers.lookup name) with
  | none => .ok (ErrorResult ("unknown tool: " ++ name))
  | some h => h args

/-- The ToolProvider view of a registry (ToolRegistry implements
ToolProvider, src/server/registry.go:39-50). -/
def ToolRegistry.toProvider (r : ToolRegistry) : ToolProvider :=
  { listTools := .ok r.tools
    callTool := r.CallTool }

/-! ## server package: shutdown signal (src/server/server.go:92-103)

`Server.Close` runs `close(s.done)` on the done channel. The Go
language definition makes closing an already-closed channel panic, so the
done channel is modelled by its closed flag and `close` by an operation
that faults when the flag is already set. -/

/-- Outcome of `close(s.done)`: the new closed state, or a runtime panic. -/
inductive CloseOutcome where
  | ok (doneClosed : Bool)
  | panicked
deriving DecidableEq

/-- Server.Close (src/server/server.go:101-103): `close(s.done)`, modelled
on the done channel's closed flag. Closing an already-closed Go channel
panics. -/
def serverClose (doneClosed : Bool) : CloseOutcome :=
  if doneClosed then .panicked else .ok true

/-! ## transport package: Stdio (src/unnamed/part_004)

The transport wraps a `bufio.Scanner` splitting the input byte stream at
newlines. The scanner state is modelled as the list of remaining lines
(the stream's content split at newline bytes). Per the bufio contract the
scanner reports `ErrTooLong` when a token cannot fit in the maximum
buffer, which `NewStdio` configures as 1 MB (64 KB initial size, growth
up to the ceiling); `Scan` returning false with a nil error is
end-of-stream. `json.Unmarshal` of a line into a `jsonrpc.Message` is
abstracted as a parse function. -/

/-- Initial scanner buffer size set by NewStdio (src/unnamed/part_004:27):
64 KB. -/
def stdioInitialBufSize : Nat := 64 * 1024

/-- Maximum scanner buffer size set by NewStdio (src/unnamed/part_004:27):
1 MB; a line longer than this is a fatal read error. -/
def stdioMaxBufSize : Nat := 1024 * 1024

/-- The failure modes of `Stdio.Read` other than clean end-of-stream:
the scanner's token-too-long error (wrapped "reading message: ...") or a
JSON unmarshal failure (wrapped "parsing message: ..."). -/
inductive ReadFailure where
  | tooLong
  | badParse
deriving DecidableEq

/-- Outcome of one `Stdio.Read` call: a message plus the remaining lines,
clean end-of-stream (`io.EOF`), or a read error. -/
inductive ReadOutcome where
  | msg (m : Message) (rest : List Bytes)
  | eofClean
  | fatal (e : ReadFailure)

/-- Stdio.Read (src/unnamed/part_004:43-63): scan the next line; a line
exceeding the scanner's maximum buffer is a scanner error; an empty line
is skipped by the recursive `t.Read()` call; otherwise the line is
unmarshalled into a message or fails with a parse error. -/
def stdioRead (parse : Bytes → Option Message) : List Bytes → ReadOutcome
  | [] => .eofClean
  | l :: rest =>
    if stdioMaxBufSize < l.length then .fatal .tooLong
    else if l.length = 0 then stdioRead parse rest
    else
      match parse l with
      | none => .fatal .badParse
      | some m => .msg m rest

/-- How `Server.Run` ends (src/server/server.go:40-73): `nil` on EOF or
explicit shutdown, the read error on a transport failure, or a crash when
a handler goroutine panics (the nil-id dereference). -/
inductive RunResult where
  | normal
  | failed (e : ReadFailure)
  | crashed
deriving DecidableEq

/-- Server.Run and Server.handleMessage (src/server/server.go:40-90)
sequentialized: the read loop pulls lines through `stdioRead`, dispatches
each message, and collects the written responses. The concurrent handler
goroutines are modelled as completing before the next read — adequate for
the per-message dispatch results and run-termination claims, which do not
depend on relative completion order. The second component is the list of
messages written back through the transport. -/
def serverRun (parse : Bytes → Option Message) (d : Decoders) (opts : Options) :
    Bool → List Bytes → RunResult × List Message
  | _, [] => (.normal, [])
  | ini, l :: rest =>
    if stdioMaxBufSize < l.length then (.failed .tooLong, [])
    else if l.length = 0 then serverRun parse d opts ini rest
    else
      match parse l with
      | none => (.failed .badParse, [])
      | some m =>
        match Handle d opts ini m with
        | .fault => (.crashed, [])
        | .done resp ini' =>
          let next := serverRun parse d opts ini' rest
          (next.1, (match resp with | some w => [w] | none => []) ++ next.2)

/-! ## output package: text limiting (src/output/text.go)

Go strings are byte strings here (`Bytes`), since the code slices at byte
granularity; `len` is byte length and `'\n'` is byte 10. -/

/-- output.TextLimits (src/output/text.go:11-16); Go `int` fields. -/
structure TextLimits where
  head : Int := 0
  tail : Int := 0
  maxLines : Int := 0
  maxBytes : Int := 0

/-- output.TruncationInfo (src/output/text.go:19-25); the counts are Go
`len` results, hence Nat. -/
structure TruncationInfo where
  originalBytes : Nat
  originalLines : Nat
  keptBytes : Nat
  keptLines : Nat
  position : String
deriving DecidableEq

/-- output.LimitedText (src/output/text.go:28-32). -/
structure LimitedText where
  content : Bytes
  truncated : Bool := false
  truncationInfo : Option TruncationInfo := none
deriving DecidableEq

/-- `strings.TrimRight(s, "\n")`: drop trailing newline bytes. -/
def trimRightNl (s : Bytes) : Bytes :=
  (s.reverse.dropWhile (fun b => b == 10)).reverse

/-- `strings.Split(s, "\n")` on byte strings. -/
def splitOnNl : Bytes → List Bytes
  | [] => [[]]
  | b :: rest =>
    match splitOnNl rest with
    | [] => [[]]
    | c :: cs => if b = 10 then [] :: c :: cs else (b :: c) :: cs

/-- output.splitLines (src/output/text.go:106-118). -/
def splitLines (s : Bytes) : List Bytes :=
  if s = [] then []
  else
    let t := trimRightNl s
    if t = [] then [[]]
    else splitOnNl t

/-- output.joinLines (src/output/text.go:120-127). -/
def joinLines (lines : List Bytes) (trailingNewline : Bool) : Bytes :=
  let s := List.intercalate [10] lines
  if trailingNewline then s ++ [10] else s

/-- `strings.LastIndex(s, "\n")`: index of the last newline byte, -1 when
there is none. -/
def lastIndexNl : Bytes → Int
  | [] => -1
  | b :: rest =>
    if 0 ≤ lastIndexNl rest then lastIndexNl rest + 1
    else if b = 10 then 0 else -1

/-- utf8.UTFMax. -/
def utf8UTFMax : Nat := 4

/-- The states of the standard UTF-8 acceptance automaton implemented by
Go's `unicode/utf8` tables (`first` and `acceptRanges`): `start` between
runes; `one1` expecting one final continuation byte 80..BF; `two1`, `two2`,
`two3` expecting the second byte of a three-byte rune with ranges
A0..BF (lead E0), 80..BF (leads E1..EC, EE, EF), 80..9F (lead ED);
`three1`, `three2`, `three3` expecting the second byte of a four-byte rune
with ranges 90..BF (lead F0), 80..BF (leads F1..F3), 80..8F (lead F4). -/
inductive U8State where
  | start
  | one1
  | two1
  | two2
  | two3
  | three1
  | three2
  | three3
deriving DecidableEq, Repr

/-- One byte of the UTF-8 acceptance automaton: from `start`, classify the
lead byte exactly as the stdlib `first` table does (ASCII; C2..DF two-byte;
E0 / E1..EC,EE,EF / ED three-byte; F0 / F1..F3 / F4 four-byte; everything
else — continuations 80..BF out of place, overlong C0..C1, and F5..FF —
invalid); from the other states, require the byte in that state's accept
range. -/
def utf8Step : U8State → Nat → Option U8State
  | .start, b =>
    if b ≤ 0x7F then some .start
    else if 0xC2 ≤ b ∧ b ≤ 0xDF then some .one1
    else if b = 0xE0 then some .two1
    else if (0xE1 ≤ b ∧ b ≤ 0xEC) ∨ b = 0xEE ∨ b = 0xEF then some .two2
    else if b = 0xED then some .two3
    else if b = 0xF0 then some .three1
    else if 0xF1 ≤ b ∧ b ≤ 0xF3 then some .three2
    else if b = 0xF4 then some .three3
    else none
  | .one1, b => if 0x80 ≤ b ∧ b ≤ 0xBF then some .start else none
  | .two1, b => if 0xA0 ≤ b ∧ b ≤ 0xBF then some .one1 else none
  | .two2, b => if 0x80 ≤ b ∧ b ≤ 0xBF then some .one1 else none
  | .two3, b => if 0x80 ≤ b ∧ b ≤ 0x9F then some .one1 else none
  | .three1, b => if 0x90 ≤ b ∧ b ≤ 0xBF then some .two2 else none
  | .three2, b => if 0x80 ≤ b ∧ b ≤ 0xBF then some .two2 else none
  | .three3, b => if 0x80 ≤ b ∧ b ≤ 0x8F then some .two2 else none

/-- Run the automaton over a byte string. -/
def utf8Run : U8State → Bytes → Option U8State
  | st, [] => some st
  | st, b :: r =>
    match utf8Step st b with
    | none => none
    | some st2 => utf8Run st2 r

/-- `utf8.ValidString` on byte strings: the whole string is accepted from
`start` and ends between runes (no dangling incomplete rune). -/
def utf8Valid (s : Bytes) : Bool :=
  decide (utf8Run .start s = some .start)

/-- The backward walk of output.truncateUTF8 (src/output/text.go:159-164):
up to `utf8.UTFMax` iterations, each checking validity before stripping
the last byte; the loop also stops when the string is empty. -/
def utf8Loop : Nat → Bytes → Bytes
  | 0, s => s
  | Nat.succ i, s =>
    if s.length = 0 then s
    else if utf8Valid s then s
    else utf8Loop i s.dropLast

/-- output.truncateUTF8 (src/output/text.go:151-167). -/
def truncateUTF8 (s : Bytes) (maxBytes : Int) : Bytes :=
  utf8Loop utf8UTFMax (if maxBytes < (s.length : Int) then s.take maxBytes.toNat else s)

/-- output.truncateAtBoundary (src/output/text.go:131-148). -/
def truncateAtBoundary (s : Bytes) (maxBytes : Int) : Bytes :=
  if maxBytes ≤ 0 then []
  else if (s.length : Int) ≤ maxBytes then s
  else
    let truncated := s.take maxBytes.toNat
    let idx := lastIndexNl truncated
    if 0 < idx then truncated.take (idx.toNat + 1)
    else truncateUTF8 truncated maxBytes

/-- Step 1 of output.LimitText (src/output/text.go:50-57): Head / Tail,
on the line list paired with the `position` marker. -/
def limitStep1 (limits : TextLimits) (lines : List Bytes) : List Bytes × String :=
  if 0 < limits.head ∧ limits.head < (lines.length : Int) then
    (lines.take limits.head.toNat, "head")
  else if 0 < limits.tail ∧ limits.tail < (lines.length : Int) then
    (lines.drop (lines.length - limits.tail.toNat), "tail")
  else (lines, "")

/-- Step 2 of output.LimitText (src/output/text.go:59-69): MaxLines. -/
def limitStep2 (limits : TextLimits) (st : List Bytes × String) : List Bytes × String :=
  if 0 < limits.maxLines ∧ limits.maxLines < (st.1.length : Int) then
    if st.2 = "tail" then (st.1.drop (st.1.length - limits.maxLines.toNat), st.2)
    else (st.1.take limits.maxLines.toNat, if st.2 = "" then "head" else st.2)
  else st

/-- Step 3 of output.LimitText (src/output/text.go:74-82): MaxBytes, on
the rejoined content; returns the content, the position, and the
(possibly re-split) line list used for the kept-lines count. -/
def limitStep3 (limits : TextLimits) (content0 : Bytes) (st : List Bytes × String) :
    Bytes × String × List Bytes :=
  if 0 < limits.maxBytes ∧ limits.maxBytes < (content0.length : Int) then
    let c := truncateAtBoundary content0 limits.maxBytes
    (c, (if st.2 = "" then "head" else st.2), splitLines c)
  else (content0, st.2, st.1)

/-- output.LimitText (src/output/text.go:36-102). The Go function's
mutable locals are threaded through the three step functions, one per
commented step of the source. -/
def LimitText (input : Bytes) (limits : TextLimits) : LimitedText :=
  if input = [] then { content := input }
  else
    let originalBytes := input.length
    let lines := splitLines input
    let originalLines := lines.length
    let trailingNewline := decide (input ≠ [] ∧ input.getLast? = some 10)
    let s2 := limitStep2 limits (limitStep1 limits lines)
    let content0 := joinLines s2.1 (trailingNewline && decide (s2.2 = ""))
    let s3 := limitStep3 limits content0 s2
    let truncated := s3.1.length ≠ originalBytes
    if ¬truncated then { content := s3.1 }
    else
      { content := s3.1
        truncated := true
        truncationInfo := some
          { originalBytes := originalBytes
            originalLines := originalLines
            keptBytes := s3.1.length
            keptLines := s3.2.2.length
            position := s3.2.1 } }

/-! ## Derived definitions used to state the claims -/

/-- The methods of the dispatch table that are requests (spec section 6
method table; `notifications/initialized` is the sole notification
method). -/
def knownRequestMethods : List String :=
  ["initialize", "ping", "tools/list", "tools/call", "resources/list",
   "resources/read", "resources/templates/list", "prompts/list", "prompts/get"]

/-- "Params decode successfully" for a message, per method: the methods
that unmarshal params are initialize, tools/call, resources/read and
prompts/get; the rest take no params. -/
def paramsDecodeOk (d : Decoders) (msg : Message) : Prop :=
  if msg.method = "initialize" then (d.initializeDec msg.params).isSome = true
  else if msg.method = "tools/call" then (d.toolCallDec msg.params).isSome = true
  else if msg.method = "resources/read" then (d.resourceReadDec msg.params).isSome = true
  else if msg.method = "prompts/get" then (d.promptGetDec msg.params).isSome = true
  else True

/-- The capability group a method is gated on, if any: the name that
appears in its "<group> not supported" InternalError message. -/
def gatedGroup (m : String) : Option String :=
  if m = "tools/list" ∨ m = "tools/call" then some "tools"
  else if m = "resources/list" ∨ m = "resources/read" ∨ m = "resources/templates/list" then
    some "resources"
  else if m = "prompts/list" ∨ m = "prompts/get" then some "prompts"
  else none

/-- The provider for the given capability group was not supplied in
Options. -/
def providerMissing (opts : Options) (g : String) : Prop :=
  (g = "tools" ∧ opts.tools = none) ∨
  (g = "resources" ∧ opts.resources = none) ∨
  (g = "prompts" ∧ opts.prompts = none)

/-- Decoders that reject every params payload (used for concrete
instantiations; methods without params never consult them). -/
def noDecoders : Decoders :=
  { initializeDec := fun _ => none
    toolCallDec := fun _ => none
    resourceReadDec := fun _ => none
    promptGetDec := fun _ => none }

/-- A minimal Options value: a server name and no providers. -/
def baseOptions : Options := { serverName := "srv" }

/-- Decoders whose tools/call decoder always yields the tool name
"missing" with empty arguments (concrete instantiation for the
unknown-tool scenario). -/
def missingToolDecoders : Decoders :=
  { noDecoders with toolCallDec := fun _ => some { name := "missing" } }

/-- Decoders whose initialize decoder always succeeds (concrete
instantiation for the initialize scenario). -/
def initOkDecoders : Decoders :=
  { noDecoders with
    initializeDec := fun _ => some
      { protocolVersion := ProtocolVersion
        capabilities := {}
        clientInfo := { name := "cli", version := "1" } } }

/-! # Theorems -/

/-! ## Dispatch helper lemmas -/

lemma NewResponse_id (i : Nat) (r : ResultPayload) : (NewResponse i r).id = some i := rfl

lemma NewErrorResponse_id (i : Nat) (c : Int) (m : String) :
    (NewErrorResponse i c m).id = some i := rfl

/-- Every response `handleInitialize` returns carries the request id. -/
lemma handleInitialize_responds (d : Decoders) (opts : Options) (ini : Bool)
    (msg : Message) (i : Nat) (hid : msg.id = some i) :
    ∃ resp ini2, handleInitialize d opts ini msg = .done (some resp) ini2 ∧
      resp.id = some i := by
  unfold handleInitialize
  rw [hid]
  cases d.initializeDec msg.params with
  | none => exact ⟨_, _, rfl, rfl⟩
  | some p => exact ⟨_, _, rfl, rfl⟩

/-- Every response `handlePing` returns carries the request id. -/
lemma handlePing_responds (ini : Bool) (msg : Message) (i : Nat)
    (hid : msg.id = some i) :
    ∃ resp ini2, handlePing ini msg = .done (some resp) ini2 ∧ resp.id = some i := by
  unfold handlePing
  rw [hid]
  exact ⟨_, _, rfl, rfl⟩

/-- Every response `handleToolsList` returns carries the request id. -/
lemma handleToolsList_responds (opts : Options) (ini : Bool) (msg : Message) (i : Nat)
    (hid : msg.id = some i) :
    ∃ resp ini2, handleToolsList opts ini msg = .done (some resp) ini2 ∧
      resp.id = some i := by
  unfold handleToolsList
  rw [hid]
  cases opts.tools with
  | none => exact ⟨_, _, rfl, rfl⟩
  | some tp =>
    dsimp only
    cases tp.listTools with
    | error e => exact ⟨_, _, rfl, rfl⟩
    | ok tools => exact ⟨_, _, rfl, rfl⟩

/-- Every response `handleToolsCall` returns carries the request id. -/
lemma handleToolsCall_responds (d : Decoders) (opts : Options) (ini : Bool)
    (msg : Message) (i : Nat) (hid : msg.id = some i) :
    ∃ resp ini2, handleToolsCall d opts ini msg = .done (some resp) ini2 ∧
      resp.id = some i := by
  unfold handleToolsCall
  rw [hid]
  cases opts.tools with
  | none => exact ⟨_, _, rfl, rfl⟩
  | some tp =>
    dsimp only
    cases d.toolCallDec msg.params with
    | none => exact ⟨_, _, rfl, rfl⟩
    | some p =>
      dsimp only
      cases tp.callTool p.name p.arguments with
      | error e => exact ⟨_, _, rfl, rfl⟩
      | ok r => exact ⟨_, _, rfl, rfl⟩

/-- Every response `handleResourcesList` returns carries the request id. -/
lemma handleResourcesList_responds (opts : Options) (ini : Bool) (msg : Message)
    (i : Nat) (hid : msg.id = some i) :
    ∃ resp ini2, handleResourcesList opts ini msg = .done (some resp) ini2 ∧
      resp.id = some i := by
  unfold handleResourcesList
  rw [hid]
  cases opts.resources with
  | none => exact ⟨_, _, rfl, rfl⟩
  | some rp =>
    dsimp only
    cases rp.listResources with
    | error e => exact ⟨_, _, rfl, rfl⟩
    | ok resources => exact ⟨_, _, rfl, rfl⟩

/-- Every response `handleResourcesRead` returns carries the request id. -/
lemma handleResourcesRead_responds (d : Decoders) (opts : Options) (ini : Bool)
    (msg : Message) (i : Nat) (hid : msg.id = some i) :
    ∃ resp ini2, handleResourcesRead d opts ini msg = .done (some resp) ini2 ∧
      resp.id = some i := by
  unfold handleResourcesRead
  rw [hid]
  cases opts.resources with
  | none => exact ⟨_, _, rfl, rfl⟩
  | some rp =>
    dsimp only
    cases d.resourceReadDec msg.params with
    | none => exact ⟨_, _, rfl, rfl⟩
    | some p =>
      dsimp only
      cases rp.readResource p.uri with
      | error e => exact ⟨_, _, rfl, rfl⟩
      | ok r => exact ⟨_, _, rfl, rfl⟩

/-- Every response `handleResourcesTemplates` returns carries the request id. -/
lemma handleResourcesTemplates_responds (opts : Options) (ini : Bool) (msg : Message)
    (i : Nat) (hid : msg.id = some i) :
    ∃ resp ini2, handleResourcesTemplates opts ini msg = .done (some resp) ini2 ∧
      resp.id = some i := by
  unfold handleResourcesTemplates
  rw [hid]
  cases opts.resources with
  | none => exact ⟨_, _, rfl, rfl⟩
  | some rp =>
    dsimp only
    cases rp.listResourceTemplates with
    | error e => exact ⟨_, _, rfl, rfl⟩
    | ok templates => exact ⟨_, _, rfl, rfl⟩

/-- Every response `handlePromptsList` returns carries the request id. -/
lemma handlePromptsList_responds (opts : Options) (ini : Bool) (msg : Message)
    (i : Nat) (hid : msg.id = some i) :
    ∃ resp ini2, handlePromptsList opts ini msg = .done (some resp) ini2 ∧
      resp.id = some i := by
  unfold handlePromptsList
  rw [hid]
  cases opts.prompts with
  | none => exact ⟨_, _, rfl, rfl⟩
  | some pp =>
    dsimp only
    cases pp.listPrompts with
    | error e => exact ⟨_, _, rfl, rfl⟩
    | ok prompts => exact ⟨_, _, rfl, rfl⟩

/-- Every response `handlePromptsGet` returns carries the request id. -/
lemma handlePromptsGet_responds (d : Decoders) (opts : Options) (ini : Bool)
    (msg : Message) (i : Nat) (hid : msg.id = some i) :
    ∃ resp ini2, handlePromptsGet d opts ini msg = .done (some resp) ini2 ∧
      resp.id = some i := by
  unfold handlePromptsGet
  rw [hid]
  cases opts.prompts with
  | none => exact ⟨_, _, rfl, rfl⟩
  | some pp =>
    dsimp only
    cases d.promptGetDec msg.params with
    | none => exact ⟨_, _, rfl, rfl⟩
    | some p =>
      dsimp only
      cases pp.getPrompt p.name p.arguments with
      | error e => exact ⟨_, _, rfl, rfl⟩
      | ok r => exact ⟨_, _, rfl, rfl⟩

/-! ## Claim C1 -/

/-- C1: the claim states that a notification (no id) never produces a
response and never faults, even when its method is a known request
method such as "ping". The code violates this: `handlePing` (and every
other known-method handler) dereferences `*msg.ID` unconditionally, so a
ping-shaped notification panics the handler goroutine, while an
unknown-method notification is indeed silently ignored. This theorem
evaluates the model at the failing input (method "ping", id absent) and,
for contrast, at an unknown-method notification. -/
theorem c1_ping_notification_faults :
    Handle noDecoders baseOptions false { method := "ping" } = .fault ∧
    Handle noDecoders baseOptions false { method := "nope/unknown" } = .done none false := by
  constructor <;> rfl

/-! ## Claim C2 -/

/-- C2: the claim states Close is one-shot and idempotent: a second Close
must be a no-op or rejected, never a fault. The code violates this:
`Server.Close` is literally `close(s.done)`, and closing an
already-closed Go channel panics. The first close succeeds (flag set);
the second panics. -/
theorem c2_double_close_panics :
    serverClose false = .ok true ∧ serverClose true = .panicked := by
  constructor <;> rfl

/-! ## Claim C3 -/

/-- C3: for every request envelope (id present) whose method is a known
request method and whose params decode successfully, dispatch returns a
response envelope whose id equals the request's id. -/
theorem c3_response_id_matches_request (d : Decoders) (opts : Options) (ini : Bool)
    (msg : Message) (i : Nat) (hid : msg.id = some i)
    (hm : msg.method ∈ knownRequestMethods) (_hp : paramsDecodeOk d msg) :
    ∃ resp ini2, Handle d opts ini msg = .done (some resp) ini2 ∧
      resp.id = some i := by
  simp only [knownRequestMethods, List.mem_cons, List.not_mem_nil, or_false] at hm
  unfold Handle
  rcases hm with hm | hm | hm | hm | hm | hm | hm | hm | hm <;> rw [hm] <;> simp only [String.reduceEq, reduceIte]
  · exact handleInitialize_responds d opts ini msg i hid
  · exact handlePing_responds ini msg i hid
  · exact handleToolsList_responds opts ini msg i hid
  · exact handleToolsCall_responds d opts ini msg i hid
  · exact handleResourcesList_responds opts ini msg i hid
  · exact handleResourcesRead_responds d opts ini msg i hid
  · exact handleResourcesTemplates_responds opts ini msg i hid
  · exact handlePromptsList_responds opts ini msg i hid
  · exact handlePromptsGet_responds d opts ini msg i hid

/-- Witness for C3 at a concrete input: the ping request with id 1. -/
theorem c3_witness :
    ({ id := some 1, method := "ping" } : Message).id = some 1 ∧
    "ping" ∈ knownRequestMethods ∧
    paramsDecodeOk noDecoders { id := some 1, method := "ping" } ∧
    ∃ resp ini2,
      Handle noDecoders baseOptions false { id := some 1, method := "ping" } =
        .done (some resp) ini2 ∧ resp.id = some 1 := by
  refine ⟨rfl, by simp [knownRequestMethods], by simp [paramsDecodeOk], ?_⟩
  exact c3_response_id_matches_request noDecoders baseOptions false
    { id := some 1, method := "ping" } 1 rfl (by simp [knownRequestMethods])
    (by simp [paramsDecodeOk])

/-! ## Claim C4 -/

/-- C4: for every request for a capability-gated method whose provider was
not supplied, dispatch returns an InternalError response with the
descriptive "<group> not supported" message, regardless of the
initialized flag (which is universally quantified here). -/
theorem c4_gated_method_without_provider (d : Decoders) (opts : Options) (ini : Bool)
    (msg : Message) (i : Nat) (g : String) (hid : msg.id = some i)
    (hg : gatedGroup msg.method = some g) (hmiss : providerMissing opts g) :
    Handle d opts ini msg =
      .done (some (NewErrorResponse i InternalError (g ++ " not supported"))) ini := by
  unfold gatedGroup at hg
  split_ifs at hg with h1 h2 h3
  · -- tools group
    cases hg
    have hnone : opts.tools = none := by
      rcases hmiss with ⟨_, h⟩ | ⟨h, _⟩ | ⟨h, _⟩ <;> simp_all
    unfold Handle
    rcases h1 with hm | hm <;> rw [hm] <;> simp only [String.reduceEq, reduceIte] <;>
      [unfold handleToolsList; unfold handleToolsCall] <;> rw [hid, hnone] <;> try rfl
  · -- resources group
    cases hg
    have hnone : opts.resources = none := by
      rcases hmiss with ⟨h, _⟩ | ⟨_, h⟩ | ⟨h, _⟩ <;> simp_all
    unfold Handle
    rcases h2 with hm | hm | hm <;> rw [hm] <;> simp only [String.reduceEq, reduceIte] <;>
      [unfold handleResourcesList; unfold handleResourcesRead;
       unfold handleResourcesTemplates] <;> rw [hid, hnone] <;> try rfl
  · -- prompts group
    cases hg
    have hnone : opts.prompts = none := by
      rcases hmiss with ⟨h, _⟩ | ⟨h, _⟩ | ⟨_, h⟩ <;> simp_all
    unfold Handle
    rcases h3 with hm | hm <;> rw [hm] <;> simp only [String.reduceEq, reduceIte] <;>
      [unfold handlePromptsList; unfold handlePromptsGet] <;> rw [hid, hnone] <;> try rfl

/-- Witness for C4 at the spec's scenario: resources/read with id 3 and no
resource provider yields InternalError "resources not supported". -/
theorem c4_witness :
    ({ id := some 3, method := "resources/read" } : Message).id = some 3 ∧
    gatedGroup "resources/read" = some "resources" ∧
    providerMissing baseOptions "resources" ∧
    Handle noDecoders baseOptions false { id := some 3, method := "resources/read" } =
      .done (some (NewErrorResponse 3 InternalError "resources not supported")) false := by
  refine ⟨rfl, by simp [gatedGroup], Or.inr (Or.inl ⟨rfl, rfl⟩), ?_⟩
  exact c4_gated_method_without_provider noDecoders baseOptions false
    { id := some 3, method := "resources/read" } 3 "resources" rfl
    (by simp [gatedGroup]) (Or.inr (Or.inl ⟨rfl, rfl⟩))

/-! ## Claim C5 -/

/-- C5: every initialize request whose params decode succeeds: the
handler's initialized flag comes back true and the response (with the
request's id) carries the protocol version, the server identity from
Options, and capabilities whose tools / resources / prompts flag is
present iff the corresponding provider was supplied. -/
theorem c5_initialize_success (d : Decoders) (opts : Options) (ini : Bool)
    (msg : Message) (i : Nat) (p : InitializeParams)
    (hm : msg.method = "initialize") (hid : msg.id = some i)
    (hp : d.initializeDec msg.params = some p) :
    ∃ caps : ServerCapabilities,
      Handle d opts ini msg =
        .done (some (NewResponse i (.initializeR
          { protocolVersion := ProtocolVersion
            capabilities := caps
            serverInfo := { name := opts.serverName, version := opts.serverVersion } })))
          true ∧
      (caps.tools.isSome ↔ opts.tools.isSome) ∧
      (caps.resources.isSome ↔ opts.resources.isSome) ∧
      (caps.prompts.isSome ↔ opts.prompts.isSome) := by
  unfold Handle
  rw [hm]
  simp only [String.reduceEq, reduceIte]
  unfold handleInitialize
  rw [hid, hp]
  refine ⟨_, rfl, ?_, ?_, ?_⟩ <;>
    [cases opts.tools; cases opts.resources; cases opts.prompts] <;> simp

/-- Witness for C5 at a concrete input: initialize with id 7 against a
provider-free Options and an always-succeeding decoder. -/
theorem c5_witness :
    ({ id := some 7, method := "initialize" } : Message).method = "initialize" ∧
    ({ id := some 7, method := "initialize" } : Message).id = some 7 ∧
    initOkDecoders.initializeDec [] = some
      { protocolVersion := ProtocolVersion
        capabilities := {}
        clientInfo := { name := "cli", version := "1" } } ∧
    ∃ caps : ServerCapabilities,
      Handle initOkDecoders baseOptions false { id := some 7, method := "initialize" } =
        .done (some (NewResponse 7 (.initializeR
          { protocolVersion := ProtocolVersion
            capabilities := caps
            serverInfo := { name := baseOptions.serverName,
                            version := baseOptions.serverVersion } })))
          true ∧
      (caps.tools.isSome ↔ baseOptions.tools.isSome) ∧
      (caps.resources.isSome ↔ baseOptions.resources.isSome) ∧
      (caps.prompts.isSome ↔ baseOptions.prompts.isSome) := by
  refine ⟨rfl, rfl, rfl, ?_⟩
  exact c5_initialize_success initOkDecoders baseOptions false
    { id := some 7, method := "initialize" } 7 _ rfl rfl rfl

/-! ## Claim C7 -/

/-- C7: a tools/call request naming a tool with no registered handler,
dispatched with a ToolRegistry as tool provider, yields a success
envelope (error field nil) whose result payload is the application-level
`ErrorResult` naming the unknown tool, with IsError set. -/
theorem c7_unknown_tool_success_envelope (d : Decoders) (reg : ToolRegistry)
    (opts : Options) (ini : Bool) (msg : Message) (i : Nat) (p : ToolCallParams)
    (hm : msg.method = "tools/call") (hid : msg.id = some i)
    (hopts : opts.tools = some reg.toProvider)
    (hp : d.toolCallDec msg.params = some p)
    (hmiss : reg.handlers.lookup p.name = none) :
    Handle d opts ini msg =
      .done (some (NewResponse i (.toolCallR (ErrorResult ("unknown tool: " ++ p.name)))))
        ini ∧
    (NewResponse i (.toolCallR (ErrorResult ("unknown tool: " ++ p.name)))).error = none ∧
    (ErrorResult ("unknown tool: " ++ p.name)).isError = true := by
  refine ⟨?_, rfl, rfl⟩
  unfold Handle
  rw [hm]
  simp only [String.reduceEq, reduceIte]
  unfold handleToolsCall
  rw [hid, hopts]
  dsimp only [ToolRegistry.toProvider]
  rw [hp]
  dsimp only
  unfold ToolRegistry.CallTool
  rw [hmiss]

/-- Witness for C7 at the spec's scenario: tools/call for "missing" with
id 2 against an empty registry. -/
theorem c7_witness :
    ({ id := some 2, method := "tools/call" } : Message).method = "tools/call" ∧
    ({ id := some 2, method := "tools/call" } : Message).id = some 2 ∧
    ({ serverName := "srv", tools := some (ToolRegistry.toProvider {}) } : Options).tools =
      some (ToolRegistry.toProvider {}) ∧
    missingToolDecoders.toolCallDec [] = some { name := "missing" } ∧
    (({} : ToolRegistry).handlers.lookup "missing" = none) ∧
    Handle missingToolDecoders { serverName := "srv", tools := some (ToolRegistry.toProvider {}) }
        false { id := some 2, method := "tools/call" } =
      .done (some (NewResponse 2 (.toolCallR (ErrorResult ("unknown tool: " ++ "missing")))))
        false := by
  refine ⟨rfl, rfl, rfl, rfl, rfl, ?_⟩
  exact (c7_unknown_tool_success_envelope missingToolDecoders {}
    { serverName := "srv", tools := some (ToolRegistry.toProvider {}) } false
    { id := some 2, method := "tools/call" } 2 { name := "missing" }
    rfl rfl rfl rfl rfl).1

/-! ## Claim C6 -/

/-- C6: a line exceeding the configured maximum message size (64 KB
initial buffer, 1 MB ceiling) makes the read fail with the fatal
framing error rather than truncating, and the Run loop terminates
surfacing that failure (returning it, with nothing written); any blank
lines before the oversized one are skipped as usual. -/
theorem c6_oversized_line_is_fatal (parse : Bytes → Option Message) (d : Decoders)
    (opts : Options) (ini : Bool) (pre : List Bytes) (l : Bytes) (post : List Bytes)
    (hpre : ∀ b ∈ pre, b.length = 0) (hl : stdioMaxBufSize < l.length) :
    stdioInitialBufSize = 64 * 1024 ∧ stdioMaxBufSize = 1024 * 1024 ∧
    stdioRead parse (pre ++ l :: post) = .fatal .tooLong ∧
    serverRun parse d opts ini (pre ++ l :: post) = (.failed .tooLong, []) := by
  refine ⟨rfl, rfl, ?_⟩
  revert hpre
  induction pre with
  | nil =>
    intro _
    constructor
    · rw [List.nil_append, stdioRead, if_pos hl]
    · rw [List.nil_append, serverRun, if_pos hl]
  | cons b pre ih =>
    intro hpre
    have hb : b.length = 0 := hpre b (by simp)
    obtain ⟨ih1, ih2⟩ := ih (fun x hx => hpre x (by simp [hx]))
    constructor
    · rw [List.cons_append, stdioRead, if_neg (by omega), if_pos hb]
      exact ih1
    · rw [List.cons_append, serverRun, if_neg (by omega), if_pos hb]
      exact ih2

/-- Witness for C6 at a concrete input: one blank line followed by a line
of 1 MB + 1 newline bytes. -/
theorem c6_witness :
    (∀ b ∈ ([[]] : List Bytes), b.length = 0) ∧
    stdioMaxBufSize < (List.replicate (stdioMaxBufSize + 1) 10).length ∧
    (stdioInitialBufSize = 64 * 1024 ∧ stdioMaxBufSize = 1024 * 1024 ∧
     stdioRead (fun _ => none)
       ([[]] ++ List.replicate (stdioMaxBufSize + 1) 10 :: []) = .fatal .tooLong ∧
     serverRun (fun _ => none) noDecoders baseOptions false
       ([[]] ++ List.replicate (stdioMaxBufSize + 1) 10 :: []) =
       (.failed .tooLong, [])) := by
  refine ⟨by simp, by simp, ?_⟩
  exact c6_oversized_line_is_fatal (fun _ => none) noDecoders baseOptions false
    [[]] _ [] (by simp) (by simp)

/-! ## Claim C8 -/

/-- C8: the line-framing read is a total function of the (finite) stream
and behaves as specified: it skips any number of blank lines; at the end
of the stream with nothing left it reports clean end-of-stream; otherwise
it consumes the next non-blank line and yields its parse (the parsed
message, a parse failure, or the scanner's too-long failure for an
oversized line). -/
theorem c8_stdio_read_skips_blanks_and_terminates (parse : Bytes → Option Message)
    (lines : List Bytes) :
    stdioRead parse lines =
      match lines.dropWhile (fun l => l.length == 0) with
      | [] => .eofClean
      | l :: rest =>
        if stdioMaxBufSize < l.length then .fatal .tooLong
        else
          match parse l with
          | none => .fatal .badParse
          | some m => .msg m rest := by
  induction lines with
  | nil => rfl
  | cons l rest ih =>
    by_cases h0 : l.length = 0
    · rw [stdioRead, if_neg (by omega), if_pos h0, ih]
      simp [List.dropWhile_cons, h0]
    · rw [stdioRead]
      simp [List.dropWhile_cons, h0]

/-! ## UTF-8 automaton lemmas -/

lemma utf8Run_append (st : U8State) (a b : Bytes) :
    utf8Run st (a ++ b) = (utf8Run st a).bind (fun st2 => utf8Run st2 b) := by
  induction a generalizing st with
  | nil => rfl
  | cons x xs ih =>
    rw [List.cons_append, utf8Run, utf8Run]
    cases utf8Step st x with
    | none => rfl
    | some st2 => exact ih st2

lemma utf8Valid_iff (s : Bytes) :
    utf8Valid s = true ↔ utf8Run .start s = some .start := by
  simp [utf8Valid]

lemma utf8Valid_append (a b : Bytes) (ha : utf8Valid a = true) (hb : utf8Valid b = true) :
    utf8Valid (a ++ b) = true := by
  rw [utf8Valid_iff] at *
  rw [utf8Run_append, ha, Option.some_bind]
  exact hb

/-- If the automaton accepts a byte string, so does any prefix (to some
intermediate state). -/
lemma utf8Run_prefix (p q : Bytes) (st : U8State)
    (h : utf8Run .start (p ++ q) = some st) :
    ∃ st2, utf8Run .start p = some st2 ∧ utf8Run st2 q = some st := by
  rw [utf8Run_append] at h
  cases hp : utf8Run .start p with
  | none => rw [hp] at h; simp at h
  | some st2 => rw [hp] at h; exact ⟨st2, rfl, h⟩

/-- An ASCII byte is only accepted from `start`, and returns to `start`. -/
lemma utf8Step_ascii (st st2 : U8State) (b : Nat) (hb : b ≤ 0x7F)
    (h : utf8Step st b = some st2) : st = .start ∧ st2 = .start := by
  cases st <;> rw [utf8Step] at h
  case start =>
    rw [if_pos hb] at h
    cases h
    exact ⟨rfl, rfl⟩
  all_goals (split_ifs at h with hc; omega)

/-- Any byte accepted from a non-`start` state is a continuation-range
byte, hence at least 0x80. -/
lemma utf8Step_mid_ge (st st2 : U8State) (b : Nat) (h : utf8Step st b = some st2)
    (hst : st ≠ .start) : 0x80 ≤ b := by
  cases st <;> rw [utf8Step] at h
  case start => exact absurd rfl hst
  all_goals (split_ifs at h with hc; omega)

/-- A successful run whose last byte is ASCII ends in `start`. -/
lemma utf8Run_last_ascii (s : Bytes) (st : U8State) (b : Nat)
    (h : utf8Run .start s = some st) (hl : s.getLast? = some b) (hb : b ≤ 0x7F) :
    st = .start := by
  have hs : s.dropLast ++ [b] = s := List.dropLast_append_getLast? b hl
  rw [← hs, utf8Run_append] at h
  cases hp : utf8Run .start s.dropLast with
  | none => rw [hp] at h; simp at h
  | some st2 =>
    rw [hp, Option.some_bind, utf8Run] at h
    cases hstep : utf8Step st2 b with
    | none => rw [hstep] at h; simp at h
    | some st3 =>
      rw [hstep] at h
      dsimp only at h
      rw [utf8Run] at h
      have heq : st3 = st := Option.some.inj h
      subst heq
      exact (utf8Step_ascii st2 st3 b hb hstep).2

/-- Cutting a valid byte string right after an ASCII byte leaves a valid
prefix. -/
lemma utf8Valid_prefix_last_ascii (p q : Bytes) (b : Nat)
    (h : utf8Valid (p ++ q) = true) (hl : p.getLast? = some b) (hb : b ≤ 0x7F) :
    utf8Valid p = true := by
  rw [utf8Valid_iff] at *
  obtain ⟨st, hp, _⟩ := utf8Run_prefix p q _ h
  rw [hp]
  rw [utf8Run_last_ascii p st b hp hl hb]

/-- Cutting a valid byte string right before an ASCII byte (or at its very
end) leaves a valid prefix. -/
lemma utf8Valid_prefix_head_ascii (p q : Bytes)
    (h : utf8Valid (p ++ q) = true)
    (hq : q = [] ∨ ∃ b, q.head? = some b ∧ b ≤ 0x7F) :
    utf8Valid p = true := by
  rw [utf8Valid_iff] at *
  obtain ⟨st, hp, hrest⟩ := utf8Run_prefix p q _ h
  rcases hq with rfl | ⟨b, hhead, hb⟩
  · rw [utf8Run] at hrest
    cases hrest
    exact hp
  · cases q with
    | nil => simp at hhead
    | cons x q2 =>
      cases hhead
      rw [utf8Run] at hrest
      cases hstep : utf8Step st b with
      | none => rw [hstep] at hrest; simp at hrest
      | some st3 =>
        by_cases hst : st = .start
        · rw [hst] at hp; rw [hp]
        · exact absurd (utf8Step_mid_ge st st3 b hstep hst) (by omega)

/-- The within-rune backtrack invariant: a successful run is at most 3
bytes past the last between-runes position, with sharper bounds for the
earlier mid-rune states. -/
lemma utf8Run_back (s : Bytes) (st : U8State) (h : utf8Run .start s = some st) :
    ∃ k, k ≤ 3 ∧ k ≤ s.length ∧
      utf8Run .start (s.take (s.length - k)) = some .start ∧
      (st = .start → k = 0) ∧ (st = .two2 → k ≤ 2) ∧
      (st = .two1 ∨ st = .two3 ∨ st = .three1 ∨ st = .three2 ∨ st = .three3 → k ≤ 1) := by
  induction s using List.reverseRecOn generalizing st with
  | nil =>
    rw [utf8Run] at h
    cases h
    exact ⟨0, by omega, by omega, rfl, fun _ => rfl, by simp, by simp⟩
  | append_singleton s' b ih =>
    rw [utf8Run_append] at h
    cases hp : utf8Run .start s' with
    | none => rw [hp] at h; simp at h
    | some st' =>
      rw [hp, Option.some_bind, utf8Run] at h
      cases hstep : utf8Step st' b with
      | none => rw [hstep] at h; simp at h
      | some st3 =>
        rw [hstep] at h
        dsimp only at h
        rw [utf8Run] at h
        have heq : st3 = st := Option.some.inj h
        subst heq
        have hlen : (s' ++ [b]).length = s'.length + 1 := by simp
        by_cases hst3 : st3 = .start
        · subst hst3
          refine ⟨0, by omega, by omega, ?_, fun _ => rfl, by simp, ?_⟩
          · rw [Nat.sub_zero, List.take_length, utf8Run_append, hp,
              Option.some_bind, utf8Run, hstep]
            rfl
          · intro hc
            rcases hc with hc | hc | hc | hc | hc <;> cases hc
        · -- the consumed byte moved into (or along) a rune
          obtain ⟨k', hk3, hkl, hktake, hkstart, hktwo2, hkone⟩ := ih st' hp
          by_cases hst' : st' = .start
          · -- b is a lead byte, one byte into the rune
            refine ⟨1, by omega, by omega, ?_, fun hc => absurd hc hst3,
              fun _ => by omega, fun _ => by omega⟩
            rw [hlen, Nat.add_sub_cancel, List.take_append_of_le_length le_rfl,
              List.take_length]
            rw [hst'] at hp
            exact hp
          · -- b continues a rune: step up from the previous state's bound
            have hkbound : k' + 1 ≤ 3 ∧ (st3 = .two2 → k' + 1 ≤ 2) := by
              cases st' with
              | start => exact absurd rfl hst'
              | one1 =>
                rw [utf8Step] at hstep
                split_ifs at hstep with hc
                cases hstep
                exact absurd rfl hst3
              | two1 =>
                rw [utf8Step] at hstep
                split_ifs at hstep with hc
                cases hstep
                have h1 := hkone (Or.inl rfl)
                exact ⟨by omega, fun hc2 => by simp at hc2⟩
              | two2 =>
                rw [utf8Step] at hstep
                split_ifs at hstep with hc
                cases hstep
                have h1 := hktwo2 rfl
                exact ⟨by omega, fun hc2 => by simp at hc2⟩
              | two3 =>
                rw [utf8Step] at hstep
                split_ifs at hstep with hc
                cases hstep
                have h1 := hkone (Or.inr (Or.inl rfl))
                exact ⟨by omega, fun hc2 => by simp at hc2⟩
              | three1 =>
                rw [utf8Step] at hstep
                split_ifs at hstep with hc
                cases hstep
                have h1 := hkone (Or.inr (Or.inr (Or.inl rfl)))
                exact ⟨by omega, fun _ => by omega⟩
              | three2 =>
                rw [utf8Step] at hstep
                split_ifs at hstep with hc
                cases hstep
                have h1 := hkone (Or.inr (Or.inr (Or.inr (Or.inl rfl))))
                exact ⟨by omega, fun _ => by omega⟩
              | three3 =>
                rw [utf8Step] at hstep
                split_ifs at hstep with hc
                cases hstep
                have h1 := hkone (Or.inr (Or.inr (Or.inr (Or.inr rfl))))
                exact ⟨by omega, fun _ => by omega⟩
            refine ⟨k' + 1, hkbound.1, by omega, ?_, fun hc => absurd hc hst3,
              hkbound.2, ?_⟩
            · rw [hlen, Nat.succ_sub_succ, List.take_append_of_le_length (by omega)]
              exact hktake
            · intro hc
              -- st3 is never an early mid-rune state after a continuation byte
              cases st' <;> rw [utf8Step] at hstep <;>
                first
                | exact absurd rfl hst'
                | (split_ifs at hstep with hc2
                   cases hstep
                   rcases hc with hc | hc | hc | hc | hc <;> cases hc)

/-- Any prefix of a valid byte string is within 3 bytes of a valid
prefix. -/
lemma utf8Valid_prefix_back (p q : Bytes) (h : utf8Valid (p ++ q) = true) :
    ∃ k, k ≤ 3 ∧ k ≤ p.length ∧ utf8Valid (p.take (p.length - k)) = true := by
  rw [utf8Valid_iff] at h
  obtain ⟨st, hp, _⟩ := utf8Run_prefix p q _ h
  obtain ⟨k, hk3, hkl, hktake, _⟩ := utf8Run_back p st hp
  exact ⟨k, hk3, hkl, by rw [utf8Valid_iff]; exact hktake⟩

/-! ## Text-pipeline validity lemmas -/

lemma trimRightNl_factor (s : Bytes) :
    ∃ k, s = trimRightNl s ++ List.replicate k 10 := by
  refine ⟨(s.reverse.takeWhile (fun b => b == 10)).length, ?_⟩
  unfold trimRightNl
  conv_lhs => rw [← s.reverse_reverse,
    ← List.takeWhile_append_dropWhile (p := fun b => b == 10) (l := s.reverse)]
  rw [List.reverse_append]
  congr 1
  have hall : ∀ x ∈ (s.reverse.takeWhile (fun b => b == 10)).reverse, x = 10 := by
    intro x hx
    simpa using List.mem_takeWhile_imp (List.mem_reverse.mp hx)
  rw [List.eq_replicate_of_mem hall, List.length_reverse]

lemma trimRightNl_valid (s : Bytes) (h : utf8Valid s = true) :
    utf8Valid (trimRightNl s) = true := by
  obtain ⟨k, hk⟩ := trimRightNl_factor s
  rw [hk] at h
  apply utf8Valid_prefix_head_ascii _ _ h
  cases k with
  | zero => exact Or.inl rfl
  | succ k => exact Or.inr ⟨10, by simp [List.replicate_succ], by omega⟩

lemma splitOnNl_ne_nil (s : Bytes) : splitOnNl s ≠ [] := by
  cases s with
  | nil => simp [splitOnNl]
  | cons b rest =>
    rw [splitOnNl]
    cases h : splitOnNl rest with
    | nil => simp
    | cons c cs =>
      dsimp only
      split_ifs <;> simp

lemma splitOnNl_factor : ∀ (s hd : Bytes) (tl : List Bytes),
    splitOnNl s = hd :: tl →
    ((∃ y, s = hd ++ y ∧ (y = [] ∨ y.head? = some 10)) ∧
     ∀ p ∈ tl, ∃ x y, s = x ++ p ++ y ∧ x.getLast? = some 10 ∧
       (y = [] ∨ y.head? = some 10)) := by
  intro s
  induction s with
  | nil =>
    intro hd tl h
    rw [splitOnNl] at h
    cases h
    exact ⟨⟨[], by simp, Or.inl rfl⟩, by simp⟩
  | cons b rest ih =>
    intro hd tl h
    rw [splitOnNl] at h
    cases hsp : splitOnNl rest with
    | nil => exact absurd hsp (splitOnNl_ne_nil rest)
    | cons c cs =>
      rw [hsp] at h
      dsimp only at h
      by_cases hb : b = 10
      · rw [if_pos hb] at h
        cases h
        subst hb
        obtain ⟨⟨y, hy, hyh⟩, htl⟩ := ih c cs hsp
        constructor
        · exact ⟨10 :: rest, rfl, Or.inr rfl⟩
        · intro p hp
          rcases List.mem_cons.mp hp with rfl | hp
          · exact ⟨[10], y, by simp [hy], rfl, hyh⟩
          · obtain ⟨x, y2, hxy, hxl, hyh2⟩ := htl p hp
            refine ⟨10 :: x, y2, by simp [hxy], ?_, hyh2⟩
            cases x with
            | nil => simp at hxl
            | cons a xs =>
              rw [List.getLast?_cons_cons]
              exact hxl
      · rw [if_neg hb] at h
        obtain ⟨⟨y, hy, hyh⟩, htl⟩ := ih c cs hsp
        cases h
        constructor
        · exact ⟨y, by simp [hy], hyh⟩
        · intro p hp
          obtain ⟨x, y2, hxy, hxl, hyh2⟩ := htl p hp
          refine ⟨b :: x, y2, by simp [hxy], ?_, hyh2⟩
          cases x with
          | nil => simp at hxl
          | cons a xs =>
            rw [List.getLast?_cons_cons]
            exact hxl

lemma splitOnNl_valid (s : Bytes) (hv : utf8Valid s = true) :
    ∀ p ∈ splitOnNl s, utf8Valid p = true := by
  intro p hp
  cases hsp : splitOnNl s with
  | nil => exact absurd hsp (splitOnNl_ne_nil s)
  | cons hd tl =>
    rw [hsp] at hp
    obtain ⟨⟨y, hy, hyh⟩, htl⟩ := splitOnNl_factor s hd tl hsp
    rcases List.mem_cons.mp hp with rfl | hp
    · rw [hy] at hv
      apply utf8Valid_prefix_head_ascii _ _ hv
      rcases hyh with rfl | hyh
      · exact Or.inl rfl
      · exact Or.inr ⟨10, hyh, by omega⟩
    · obtain ⟨x, y2, hxy, hxl, hyh2⟩ := htl p hp
      rw [hxy] at hv
      have hxp : utf8Valid (x ++ p) = true := by
        apply utf8Valid_prefix_head_ascii _ _ hv
        rcases hyh2 with rfl | hyh2
        · exact Or.inl rfl
        · exact Or.inr ⟨10, hyh2, by omega⟩
      rw [utf8Valid_iff] at hxp ⊢
      obtain ⟨st, hx, hrest⟩ := utf8Run_prefix x p _ hxp
      rw [utf8Run_last_ascii x st 10 hx hxl (by omega)] at hrest
      exact hrest

lemma splitLines_valid (s : Bytes) (hv : utf8Valid s = true) :
    ∀ p ∈ splitLines s, utf8Valid p = true := by
  intro p hp
  unfold splitLines at hp
  split_ifs at hp with h1
  · simp at hp
  · dsimp only at hp
    split_ifs at hp with h2
    · simp at hp
      subst hp
      rfl
    · exact splitOnNl_valid _ (trimRightNl_valid s hv) p hp

lemma intercalateNl_valid (ls : List Bytes) (h : ∀ l ∈ ls, utf8Valid l = true) :
    utf8Valid (List.intercalate [10] ls) = true := by
  induction ls with
  | nil => rfl
  | cons a ls ih =>
    cases ls with
    | nil => simpa [List.intercalate] using h a (by simp)
    | cons b ls2 =>
      have hrec : utf8Valid (List.intercalate [10] (b :: ls2)) = true :=
        ih (fun l hl => h l (by simp [List.mem_cons.mp hl]))
      have hstep : List.intercalate [10] (a :: b :: ls2) =
          a ++ [10] ++ List.intercalate [10] (b :: ls2) := by
        simp [List.intercalate, List.intersperse]
      rw [hstep, List.append_assoc]
      exact utf8Valid_append _ _ (h a (by simp))
        (utf8Valid_append _ _ (by rfl) hrec)

lemma joinLines_valid (lines : List Bytes) (tn : Bool)
    (h : ∀ l ∈ lines, utf8Valid l = true) :
    utf8Valid (joinLines lines tn) = true := by
  unfold joinLines
  split_ifs
  · exact utf8Valid_append _ _ (intercalateNl_valid lines h) (by rfl)
  · exact intercalateNl_valid lines h

lemma lastIndexNl_lt (s : Bytes) : lastIndexNl s < (s.length : Int) := by
  induction s with
  | nil => decide
  | cons b rest ih =>
    rw [lastIndexNl]
    split_ifs with h1 h2 <;> simp [List.length_cons] <;> omega

lemma lastIndexNl_take (s : Bytes) (h : 0 ≤ lastIndexNl s) :
    (s.take ((lastIndexNl s).toNat + 1)).getLast? = some 10 := by
  induction s with
  | nil => exact absurd h (by decide)
  | cons b rest ih =>
    rw [lastIndexNl] at h ⊢
    by_cases h1 : 0 ≤ lastIndexNl rest
    · rw [if_pos h1] at h ⊢
      have htn : (lastIndexNl rest + 1).toNat = (lastIndexNl rest).toNat + 1 := by omega
      rw [htn, List.take_succ_cons]
      have hne : rest.take ((lastIndexNl rest).toNat + 1) ≠ [] := by
        have hlt := lastIndexNl_lt rest
        simp only [ne_eq, List.take_eq_nil_iff]
        push_neg
        constructor
        · omega
        · intro hr
          rw [hr] at h1
          exact absurd h1 (by decide)
      cases hrt : rest.take ((lastIndexNl rest).toNat + 1) with
      | nil => exact absurd hrt hne
      | cons z zs =>
        have hih := ih h1
        rw [hrt] at hih
        rw [List.getLast?_cons_cons]
        exact hih
    · rw [if_neg h1] at h ⊢
      by_cases h2 : b = 10
      · rw [if_pos h2] at h ⊢
        subst h2
        simp
      · rw [if_neg h2] at h
        simp at h

lemma utf8Loop_length (n : Nat) (s : Bytes) : (utf8Loop n s).length ≤ s.length := by
  induction n generalizing s with
  | zero => simp [utf8Loop]
  | succ n ih =>
    rw [utf8Loop]
    split_ifs with h1 h2
    · exact le_rfl
    · exact le_rfl
    · refine le_trans (ih s.dropLast) ?_
      simp [List.length_dropLast]

lemma utf8Loop_valid (n : Nat) (s : Bytes)
    (h : ∃ k, k < n ∧ k ≤ s.length ∧ utf8Valid (s.take (s.length - k)) = true) :
    utf8Valid (utf8Loop n s) = true := by
  induction n generalizing s with
  | zero =>
    obtain ⟨k, hk, _⟩ := h
    omega
  | succ n ih =>
    rw [utf8Loop]
    split_ifs with h1 h2
    · have hnil : s = [] := List.eq_nil_of_length_eq_zero h1
      subst hnil
      rfl
    · exact h2
    · obtain ⟨k, hkn, hkl, hkv⟩ := h
      apply ih
      have hk0 : k ≠ 0 := by
        intro h0
        subst h0
        simp only [Nat.sub_zero, List.take_length] at hkv
        exact h2 hkv
      refine ⟨k - 1, by omega, ?_, ?_⟩
      · simp [List.length_dropLast]
        omega
      · rw [List.dropLast_eq_take, List.take_take]
        have hlen1 : (s.take (s.length - 1)).length = s.length - 1 := by
          rw [List.length_take]
          omega
        rw [hlen1]
        have hmin : min (s.length - 1 - (k - 1)) (s.length - 1) = s.length - k := by
          omega
        rw [hmin]
        exact hkv

lemma truncateAtBoundary_length (s : Bytes) (m : Int) (hm : 0 < m) :
    ((truncateAtBoundary s m).length : Int) ≤ m := by
  unfold truncateAtBoundary
  split_ifs with h1 h2
  · simp
    omega
  · exact h2
  · dsimp only
    split_ifs with h3
    · have hlt := lastIndexNl_lt (s.take m.toNat)
      rw [List.length_take] at hlt ⊢
      rw [List.length_take]
      push_cast at hlt ⊢
      omega
    · unfold truncateUTF8
      have htl : ((s.take m.toNat).length : Int) = m := by
        rw [List.length_take]
        push_cast
        omega
      rw [if_neg (by omega)]
      have := utf8Loop_length utf8UTFMax (s.take m.toNat)
      omega

lemma truncateAtBoundary_valid (s : Bytes) (m : Int) (hv : utf8Valid s = true) :
    utf8Valid (truncateAtBoundary s m) = true := by
  unfold truncateAtBoundary
  split_ifs with h1 h2
  · rfl
  · exact hv
  · dsimp only
    split_ifs with h3
    · rw [List.take_take]
      apply utf8Valid_prefix_last_ascii _
        (s.drop (min ((lastIndexNl (s.take m.toNat)).toNat + 1) m.toNat)) 10
      · rw [List.take_append_drop]
        exact hv
      · rw [← List.take_take]
        exact lastIndexNl_take (s.take m.toNat) (by omega)
      · omega
    · unfold truncateUTF8
      have htl : ((s.take m.toNat).length : Int) = m := by
        rw [List.length_take]
        push_cast
        omega
      rw [if_neg (by omega)]
      apply utf8Loop_valid
      obtain ⟨k, hk3, hkl, hkv⟩ := utf8Valid_prefix_back (s.take m.toNat) (s.drop m.toNat)
        (by rw [List.take_append_drop]; exact hv)
      exact ⟨k, by simp [utf8UTFMax]; omega, hkl, hkv⟩

lemma limitStep1_sub (limits : TextLimits) (lines : List Bytes) :
    ∀ l ∈ (limitStep1 limits lines).1, l ∈ lines := by
  unfold limitStep1
  split_ifs <;> intro l hl
  · exact List.take_subset _ _ hl
  · exact List.drop_subset _ _ hl
  · exact hl

lemma limitStep2_sub (limits : TextLimits) (st : List Bytes × String) :
    ∀ l ∈ (limitStep2 limits st).1, l ∈ st.1 := by
  unfold limitStep2
  split_ifs <;> intro l hl
  · exact List.drop_subset _ _ hl
  · exact List.take_subset _ _ hl
  · exact List.take_subset _ _ hl
  · exact hl

lemma limitStep3_fst (limits : TextLimits) (content0 : Bytes) (st : List Bytes × String) :
    (limitStep3 limits content0 st).1 =
      if 0 < limits.maxBytes ∧ limits.maxBytes < (content0.length : Int) then
        truncateAtBoundary content0 limits.maxBytes
      else content0 := by
  unfold limitStep3
  split_ifs <;> rfl

lemma LimitText_content (input : Bytes) (limits : TextLimits) (h : input ≠ []) :
    (LimitText input limits).content =
      (limitStep3 limits
        (joinLines (limitStep2 limits (limitStep1 limits (splitLines input))).1
          (decide (input ≠ [] ∧ input.getLast? = some 10) &&
            decide ((limitStep2 limits (limitStep1 limits (splitLines input))).2 = "")))
        (limitStep2 limits (limitStep1 limits (splitLines input)))).1 := by
  unfold LimitText
  rw [if_neg h]
  dsimp only
  split_ifs <;> rfl

/-! ## Claim C10 -/

/-- C10: for every valid-UTF-8 input and every TextLimits with positive
MaxBytes, LimitText returns content of byte length at most MaxBytes that
is itself valid UTF-8 (truncation backs up to the last newline within the
window, or to a rune boundary, never cutting mid-rune). -/
theorem c10_limittext_bounded_and_utf8 (input : Bytes) (limits : TextLimits)
    (hv : utf8Valid input = true) (hb : 0 < limits.maxBytes) :
    ((LimitText input limits).content.length : Int) ≤ limits.maxBytes ∧
    utf8Valid (LimitText input limits).content = true := by
  by_cases h : input = []
  · subst h
    have hc0 : (LimitText [] limits).content = [] := by simp [LimitText]
    rw [hc0]
    refine ⟨by simp; omega, rfl⟩
  · rw [LimitText_content input limits h, limitStep3_fst]
    have hcv : utf8Valid (joinLines (limitStep2 limits (limitStep1 limits (splitLines input))).1
        (decide (input ≠ [] ∧ input.getLast? = some 10) &&
          decide ((limitStep2 limits (limitStep1 limits (splitLines input))).2 = ""))) =
        true := by
      apply joinLines_valid
      intro l hl
      exact splitLines_valid input hv l
        (limitStep1_sub _ _ l (limitStep2_sub _ _ l hl))
    split_ifs with hc
    · exact ⟨truncateAtBoundary_length _ _ hb, truncateAtBoundary_valid _ _ hcv⟩
    · refine ⟨?_, hcv⟩
      push_neg at hc
      exact hc hb

/-- Witness for C10 at a concrete input: the three-byte string "ab\n"
(bytes 97, 98, 10) with MaxBytes 2. -/
theorem c10_witness :
    utf8Valid [97, 98, 10] = true ∧ (0 : Int) < (2 : Int) ∧
    (((LimitText [97, 98, 10] { maxBytes := 2 }).content.length : Int) ≤ 2 ∧
     utf8Valid (LimitText [97, 98, 10] { maxBytes := 2 }).content = true) := by
  refine ⟨by decide, by decide, ?_⟩
  exact c10_limittext_bounded_and_utf8 [97, 98, 10] { maxBytes := 2 } (by decide) (by decide)

end Mcp
